import Mathlib

/-!
Verification development for the parselglossy validation core
(`src/parselglossy/validate.py`, `src/parselglossy/types.py`).

The Python code is shallowly embedded: Python values become the inductive
type `Value`; Python dicts become ordered association lists with Python
dict semantics (insertion order preserved, assignment to an existing key
keeps its position, insertion of a new key appends); fallible Python code
becomes `Except PyErr`.  Python `float` and `complex` payloads are kept as
opaque literal strings: no claim ever computes with a float, only with its
runtime type name.
-/

namespace Parselglossy

/-- Python runtime values, as far as the validator observes them. -/
inductive Value where
  | vnone
  | vbool (b : Bool)
  | vint (n : Int)
  | vfloat (lit : String)
  | vcomplex (lit : String)
  | vstr (s : String)
  | vlist (xs : List Value)
  | vdict (entries : List (String × Value))
deriving Repr

/-- Python exceptions that the embedded code can raise.  `fuelOut` is the
recursion-fuel marker of the embedding and never occurs for adequate fuel. -/
inductive PyErr where
  | valueError (msg : String)
  | inputError (msg : String)
  | templateError (msg : String)
  | keyError (key : String)
  | typeErr (msg : String)
  | indexError
  | raised (name : String)
  | fuelOut
deriving DecidableEq, Repr

/-- Python `type(v).__name__`. -/
def pyTypeName : Value → String
  | .vnone => "NoneType"
  | .vbool _ => "bool"
  | .vint _ => "int"
  | .vfloat _ => "float"
  | .vcomplex _ => "complex"
  | .vstr _ => "str"
  | .vlist _ => "list"
  | .vdict _ => "dict"

/-- Keys of a Python dict, in insertion order. -/
def pyKeys (es : List (String × Value)) : List String := es.map (·.1)

/-- Python `d[k]` lookup (first occurrence; Python dicts have unique keys). -/
def pyGet (es : List (String × Value)) (k : String) : Option Value :=
  (es.find? (fun e => e.1 == k)).map (·.2)

/-- Python `d[k] = v`: replace in place when the key exists, append otherwise. -/
def pySet : List (String × Value) → String → Value → List (String × Value)
  | [], k, v => [(k, v)]
  | e :: es, k, v => if e.1 = k then (k, v) :: es else e :: pySet es k v

/-- Python `repr` of a string (modelled for strings without quote characters). -/
def pyReprStr (s : String) : String := "'" ++ s ++ "'"

/-- Python `repr` of a set of strings.  Set iteration order is hash-dependent
in Python; the embedding determinises it to first-occurrence order. -/
def pySetRepr (xs : List String) : String :=
  "\x7b" ++ String.intercalate ", " (xs.map pyReprStr) ++ "\x7d"

/-- Python `repr` of a list of strings. -/
def pyListRepr (xs : List String) : String :=
  "[" ++ String.intercalate ", " (xs.map pyReprStr) ++ "]"

/-- Keep the first occurrence of each element, dropping later duplicates. -/
def pyDedup (seen : List String) : List String → List String
  | [] => []
  | x :: xs => if x ∈ seen then pyDedup seen xs else x :: pyDedup (x :: seen) xs

/-- Python `set(a).difference(set(b))`, determinised to `a`'s element order. -/
def pySetDiff (a b : List String) : List String :=
  pyDedup [] (a.filter (fun x => !b.contains x))

/-- validate.py line 29 / types.py line 37: the five scalar type tags. -/
def allowed_basic_types : List String := ["str", "int", "float", "complex", "bool"]

/-- validate.py line 30 / types.py line 46: the five list type tags. -/
def allowed_list_types : List String :=
  allowed_basic_types.map (fun t => "List[" ++ t ++ "]")

/-- validate.py line 31 / types.py line 63: all ten recognized tags. -/
def allowed_types : List String := allowed_basic_types ++ allowed_list_types

/-- Character class of the regex `\w`. -/
def isWordChar (c : Char) : Bool := c.isAlphanum || c = '_'

/-- Python `str.strip()`: leading and trailing whitespace removed. -/
def pyStrip (s : String) : String :=
  String.mk (((s.toList.dropWhile Char.isWhitespace).reverse.dropWhile
    Char.isWhitespace).reverse)

/-- The regex `^List\[(\w+)\]$` of validate.py lines 37/46: `some T` when the
tag has the shape `List[T]`, `none` otherwise.  (On the ten recognized tags —
the only ones this is applied to after the membership check — this agrees
with Python's `re` semantics.) -/
def listElementType (s : String) : Option String :=
  let cs := s.toList
  let mid := (cs.drop 5).dropLast
  if "List[".toList.isPrefixOf cs && "]".toList.isSuffixOf cs
      && !mid.isEmpty && mid.all isWordChar then
    some (String.mk mid)
  else none

/-- validate.py lines 16-55, `type_matches(value, expected_type)`: raise
`ValueError` for an unrecognized tag, else for `List[T]` check that the value
is a `list` whose every element has runtime type name `T`, and for a scalar
tag compare the value's runtime type name with the tag. -/
def type_matches (value : Value) (expected_type : String) : Except PyErr Bool :=
  if allowed_types.contains expected_type then
    match listElementType expected_type with
    | some elemT =>
      match value with
      | .vlist xs => .ok (xs.all (fun x => pyTypeName x == elemT))
      | _ => .ok false
    | none => .ok (pyTypeName value == expected_type)
  else
    .error (.valueError ("could not recognize expected_type: " ++ expected_type))

/-- Python `str(v)` for non-container values (`str` of a list or dict is not
needed by the embedded code paths and is left unmodelled). -/
def pyStrOf : Value → Option String
  | .vnone => some "None"
  | .vbool b => some (if b then "True" else "False")
  | .vint n => some (toString n)
  | .vfloat lit => some lit
  | .vcomplex lit => some lit
  | .vstr s => some s
  | .vlist _ => none
  | .vdict _ => none

/-- Python truthiness `bool(v)`.  Zero-valued floats and complexes are not
modelled (their payloads are opaque literals); no claim evaluates them. -/
def pyTruthy : Value → Bool
  | .vnone => false
  | .vbool b => b
  | .vint n => n != 0
  | .vfloat _ => true
  | .vcomplex _ => true
  | .vstr s => s != ""
  | .vlist xs => !xs.isEmpty
  | .vdict es => !es.isEmpty

/-- types.py line 107: the `str` constructor as a type fixer. -/
def fix_str (v : Value) : Except PyErr Value :=
  match pyStrOf v with
  | some s => .ok (.vstr s)
  | none => .error (.typeErr "str() of containers is not modelled")

/-- types.py line 103: the `bool` constructor (Python truthiness). -/
def fix_bool (v : Value) : Except PyErr Value := .ok (.vbool (pyTruthy v))

/-- Decimal digits to a number, most significant first. -/
def digitsToNat (ds : List Char) : Nat :=
  ds.foldl (fun a c => a * 10 + (c.toNat - '0'.toNat)) 0

/-- Python `int(s)` on a string: optional sign, decimal digits, surrounding
whitespace allowed (underscore separators are not modelled). -/
def pyParseInt (s : String) : Option Int :=
  match (pyStrip s).toList with
  | [] => none
  | '-' :: ds =>
    if !ds.isEmpty && ds.all Char.isDigit then some (-(digitsToNat ds : Nat)) else none
  | '+' :: ds =>
    if !ds.isEmpty && ds.all Char.isDigit then some (digitsToNat ds) else none
  | ds => if ds.all Char.isDigit then some (digitsToNat ds) else none

/-- types.py line 106: the `int` constructor, on the value shapes the
validator can feed it. -/
def fix_int (v : Value) : Except PyErr Value :=
  match v with
  | .vbool b => .ok (.vint (if b then 1 else 0))
  | .vint n => .ok (.vint n)
  | .vstr s =>
    match pyParseInt s with
    | some n => .ok (.vint n)
    | none => .error (.valueError ("invalid literal for int() with base 10: " ++ pyReprStr s))
  | _ => .error (.typeErr "int() of this value is not modelled")

/-- types.py line 105: the `float` constructor (payloads are repr strings). -/
def fix_float (v : Value) : Except PyErr Value :=
  match v with
  | .vbool b => .ok (.vfloat (if b then "1.0" else "0.0"))
  | .vint n => .ok (.vfloat (toString n ++ ".0"))
  | .vfloat lit => .ok (.vfloat lit)
  | _ => .error (.typeErr "float() of this value is not modelled")

/-- types.py line 104: the `complex` constructor (payloads are repr strings). -/
def fix_complex (v : Value) : Except PyErr Value :=
  match v with
  | .vcomplex lit => .ok (.vcomplex lit)
  | _ => .error (.typeErr "complex() of this value is not modelled")

/-- types.py lines 109-112.  The dict comprehension
`tmp = {"List[{:s}]".format(k): lambda x: list(map(v, x)) for k, v in type_fixers.items()}`
builds five lambdas that all close over the comprehension's loop variable
`v` — not its value at each iteration.  When any of them is later called,
`v` holds its final binding, which by the insertion order
bool, complex, float, int, str of `type_fixers` is the `str` constructor.
So EVERY `List[T]` entry maps Python `str` over the items, regardless of T.
This single function is therefore the value of all five list entries. -/
def list_fixer (x : Value) : Except PyErr Value :=
  match x with
  | .vlist xs => (xs.mapM fix_str).map Value.vlist
  | .vstr s => .ok (.vlist (s.toList.map (fun c => .vstr (String.mk [c]))))
  | _ => .error (.typeErr "list(map(str, x)) of a non-iterable")

/-- types.py lines 102-113: the `type_fixers` dictionary.  The five scalar
entries map tags to their constructors; the five list entries are built by
the comprehension described at `list_fixer` and all hold the same
str-mapping lambda. -/
def type_fixers (tag : String) : Option (Value → Except PyErr Value) :=
  if tag = "bool" then some fix_bool
  else if tag = "complex" then some fix_complex
  else if tag = "float" then some fix_float
  else if tag = "int" then some fix_int
  else if tag = "str" then some fix_str
  else if allowed_list_types.contains tag then some list_fixer
  else none

/-- Application of the `type_fixers` entry for a tag (`type_fixers[tag](v)`,
the "coerce" operation of the spec); `KeyError` on an unknown tag. -/
def coerce (tag : String) (v : Value) : Except PyErr Value :=
  match type_fixers tag with
  | some f => f v
  | none => .error (.keyError tag)

/-- One entry of a template node's `keywords` list.  Optional fields model
optional dict keys: accessing an absent one raises `KeyError`. -/
structure TKeyword where
  keyword : String
  documentation : Option String := none
  ktype : Option String := none
  default : Option Value := none
  predicates : Option (List String) := none
deriving Repr

/-- A template node: the optional `sections` entry (pairs of the section's
`section` name with its own template node) and the optional `keywords`
entry.  Absence of an entry models absence of the dict key. -/
inductive Template where
  | mk (sections : Option (List (String × Template))) (keywords : Option (List TKeyword))

/-- The `sections` entry of a template node, when present. -/
def Template.sections : Template → Option (List (String × Template))
  | .mk s _ => s

/-- The `keywords` entry of a template node, when present. -/
def Template.keywords : Template → Option (List TKeyword)
  | .mk _ k => k

/-- validate.py line 83 (and line 169): the input keys whose value is a
dict, i.e. the section-like keys, in key order. -/
def inputSectionsOf (es : List (String × Value)) : List String :=
  (pyKeys es).filter (fun x => pyTypeName ((pyGet es x).getD .vnone) == "dict")

/-- validate.py line 84 (and line 170): the input keys that are not
section-like, in key order. -/
def inputKeywordsOf (es : List (String × Value)) : List String :=
  (pyKeys es).filter (fun x => !(inputSectionsOf es).contains x)

/-- Substring relation on strings (for reasoning about error messages). -/
def strContains (s sub : String) : Prop := sub.toList <:+: s.toList

instance (s sub : String) : Decidable (strContains s sub) :=
  inferInstanceAs (Decidable (sub.toList <:+: s.toList))

/-- validate.py lines 97-98: keywords whose `documentation` entry is absent
or whitespace-only. -/
def keywordsNoDoc (tks : List TKeyword) : List String :=
  (tks.filter (fun x => x.documentation.isNone || pyStrip (x.documentation.getD "") == "")).map (·.keyword)

/-- validate.py line 112: keywords without a `default` entry. -/
def keywordsNoDefault (tks : List TKeyword) : List String :=
  (tks.filter (fun x => x.default.isNone)).map (·.keyword)

/-- validate.py lines 119/126: `list(filter(lambda x: x['keyword'] == k, tks))[0]`,
`none` modelling the `IndexError` of indexing an empty filter result. -/
def findKeywordSpec (tks : List TKeyword) (k : String) : Option TKeyword :=
  (tks.filter (fun x => x.keyword == k)).head?

/-- validate.py line 133: `list(filter(lambda x: x['section'] == s, secs))[0]`. -/
def findSectionTemplate (secs : List (String × Template)) (s : String) :
    Option (String × Template) :=
  (secs.filter (fun x => x.1 == s)).head?

/-- validate.py lines 118-122: for each input keyword, in order, look up its
template spec, read the declared `type`, and check the input value with
`type_matches`; the first failure raises
`InputError("incorrect type for keyword: k, expected 'T' type")`. -/
def checkTypesLoop (entries : List (String × Value)) (tks : List TKeyword) :
    List String → Except PyErr Unit
  | [] => .ok ()
  | k :: rest =>
    match findKeywordSpec tks k with
    | none => .error .indexError
    | some tk =>
      match tk.ktype with
      | none => .error (.keyError "type")
      | some t =>
        match pyGet entries k with
        | none => .error (.keyError k)
        | some v =>
          match type_matches v t with
          | .error e => .error e
          | .ok true => checkTypesLoop entries tks rest
          | .ok false =>
            .error (.inputError
              ("incorrect type for keyword: " ++ k ++ ", expected '" ++ t ++ "' type"))

/-- validate.py lines 125-128: for each template keyword missing from the
input (the set difference, determinised to template order), look up its spec
and assign its `default` into the input dict. -/
def fillDefaultsLoop (tks : List TKeyword) :
    List String → List (String × Value) → Except PyErr (List (String × Value))
  | [], entries => .ok entries
  | k :: rest, entries =>
    match findKeywordSpec tks k with
    | none => .error .indexError
    | some tk =>
      match tk.default with
      | none => .error (.keyError "default")
      | some d => fillDefaultsLoop tks rest (pySet entries k d)

/-- validate.py lines 131-134: for each template section name, in order, read
the input's entry for that name (`KeyError` when absent), look up the section
template by name, recursively validate and assign the result back into the
input dict. -/
def sectionsLoop (recur : Value → Template → Except PyErr Value)
    (secs : List (String × Template)) :
    List String → List (String × Value) → Except PyErr (List (String × Value))
  | [], entries => .ok entries
  | s :: rest, entries =>
    match pyGet entries s with
    | none => .error (.keyError s)
    | some inputSection =>
      match findSectionTemplate secs s with
      | none => .error .indexError
      | some ts =>
        match recur inputSection ts.2 with
        | .error e => .error e
        | .ok validated => sectionsLoop recur secs rest (pySet entries s validated)

/-- validate.py lines 58-136, `validate_node(input_dict, template_dict)`,
with explicit recursion fuel (the recursion descends one template section
per step, so any fuel exceeding the template's nesting depth is adequate).

The source mutates `input_dict` in place (fills defaults, reassigns section
values) and finishes with `return input_dict`; its docstring states "This
function modifies input_dict".  The state of that single dict is threaded
explicitly, so the returned value models simultaneously the function's
return value and the final state of the caller's `input_dict` object — in
Python they are one and the same object.

Iterating a non-dict input raises at lines 83-84 (`TypeError` or
`AttributeError` depending on the value); both are modelled as `typeErr`.
Line 97 reads `template_dict['keywords']` unguarded — `KeyError` when the
template has no `keywords` entry — while lines 91-94 guard the same access;
the guarded value `template_keywords` is recovered from the same list. -/
def validate_nodeF : Nat → Value → Template → Except PyErr Value
  | 0, _, _ => .error .fuelOut
  | n + 1, input_dict, template_dict =>
    match input_dict with
    | .vdict entries =>
      -- lines 83-84: partition the input keys by the runtime shape of their values
      let input_sections := inputSectionsOf entries
      let input_keywords := inputKeywordsOf entries
      -- lines 86-89
      let template_sections := (template_dict.sections.getD []).map (·.1)
      match template_dict.keywords with
      | none => .error (.keyError "keywords")  -- line 97, unguarded access
      | some tks =>
        let template_keywords := tks.map (·.keyword)  -- lines 91-94
        -- lines 97-100: stop on keywords without documentation
        let no_doc := keywordsNoDoc tks
        if no_doc.length > 0 then
          .error (.templateError ("keyword(s) without any documentation: " ++ pyListRepr no_doc))
        else
          -- lines 102-109: unexpected keywords and sections
          let diff1 := pySetDiff input_keywords template_keywords
          if diff1 ≠ [] then
            .error (.inputError ("found unexpected keyword(s): " ++ pySetRepr diff1))
          else
            let diff2 := pySetDiff input_sections template_sections
            if diff2 ≠ [] then
              .error (.inputError ("found unexpected section(s): " ++ pySetRepr diff2))
            else
              -- lines 112-115: required keywords must be set
              let diff3 := pySetDiff (keywordsNoDefault tks) input_keywords
              if diff3 ≠ [] then
                .error (.inputError ("the following keyword(s) must be set: " ++ pySetRepr diff3))
              else
                -- lines 118-122
                match checkTypesLoop entries tks input_keywords with
                | .error e => .error e
                | .ok _ =>
                  -- lines 125-128
                  match fillDefaultsLoop tks (pySetDiff template_keywords input_keywords) entries with
                  | .error e => .error e
                  | .ok entries2 =>
                    -- lines 131-134
                    match sectionsLoop (validate_nodeF n) (template_dict.sections.getD [])
                        template_sections entries2 with
                    | .error e => .error e
                    | .ok entries3 => .ok (.vdict entries3)  -- line 136: return input_dict
    | _ => .error (.typeErr "iterating a non-dict input node")

/-- Outcome of `eval(predicate)` in check_predicates_node, abstracted by an
oracle: Python `eval` of arbitrary expression strings is outside the
embedding, but the claims concern only how its outcome is routed.  The
oracle receives the predicate text and the keyword's bound `value`. -/
inductive EvalRes where
  | ok (r : Value)
  | synErr
  | exc (name : String)

/-- validate.py lines 139-195, `check_predicates_node(input_dict,
input_dict_node, template_dict_node)`, with `eval` abstracted by `ev` and
recursion fuel as in `validate_nodeF`.  Lines 184-189: `eval` is guarded by
`except SyntaxError` only — a syntax error becomes a `TemplateError`, a
falsy result an `InputError`, and any other exception raised by evaluation
(modelled by `EvalRes.exc`) propagates unhandled (`PyErr.raised`).
Line 179 reads `template_dict_node['keywords']` inside the loop body, so the
`KeyError` for an absent `keywords` entry fires only when an input keyword
is present. -/
def check_predicates_nodeF (ev : String → Value → EvalRes) :
    Nat → Value → Value → Template → Except PyErr Unit
  | 0, _, _, _ => .error .fuelOut
  | n + 1, input_dict, input_dict_node, template_dict_node =>
    match input_dict_node with
    | .vdict entries =>
      -- lines 169-170
      let input_keywords := inputKeywordsOf entries
      -- lines 172-175
      let template_sections := (template_dict_node.sections.getD []).map (·.1)
      -- lines 178-189
      match predsLoop ev entries template_dict_node input_keywords with
      | .error e => .error e
      | .ok _ =>
        -- lines 192-195
        predSectionsLoop ev input_dict (check_predicates_nodeF ev n input_dict)
          (template_dict_node.sections.getD []) template_sections entries
    | _ => .error (.typeErr "iterating a non-dict input node")
where
  /-- lines 178-189: the loop over the input keywords of the node. -/
  predsLoop (ev : String → Value → EvalRes) (entries : List (String × Value))
      (template_dict_node : Template) :
      List String → Except PyErr Unit
    | [] => .ok ()
    | k :: rest =>
      match template_dict_node.keywords with
      | none => .error (.keyError "keywords")  -- line 179, inside the loop body
      | some tks =>
        match findKeywordSpec tks k with
        | none => .error .indexError
        | some tk =>
          let value := (pyGet entries k).getD .vnone  -- line 181; k is a key of the node
          match tk.predicates with
          | none => predsLoop ev entries template_dict_node rest  -- line 182 guard
          | some preds =>
            match onePredLoop ev k value preds with
            | .error e => .error e
            | .ok _ => predsLoop ev entries template_dict_node rest
  /-- lines 183-189: the loop over one keyword's predicates. -/
  onePredLoop (ev : String → Value → EvalRes) (k : String) (value : Value) :
      List String → Except PyErr Unit
    | [] => .ok ()
    | p :: rest =>
      match ev p value with
      | .synErr =>
        .error (.templateError ("syntax error in predicate " ++ p ++ " in keyword " ++ k))
      | .exc e => .error (.raised e)
      | .ok r =>
        if pyTruthy r then onePredLoop ev k value rest
        else .error (.inputError ("predicate " ++ p ++ " failed in keyword " ++ k))
  /-- lines 192-195: the recursion into the node's sections. -/
  predSectionsLoop (ev : String → Value → EvalRes) (input_dict : Value)
      (recur : Value → Template → Except PyErr Unit)
      (secs : List (String × Template)) :
      List String → List (String × Value) → Except PyErr Unit
    | [], _ => .ok ()
    | s :: rest, entries =>
      match pyGet entries s with
      | none => .error (.keyError s)
      | some inputSection =>
        match findSectionTemplate secs s with
        | none => .error .indexError
        | some ts =>
          match recur inputSection ts.2 with
          | .error e => .error e
          | .ok _ => predSectionsLoop ev input_dict recur secs rest entries

/-- Well-formedness every tree produced by Python's dict machinery has:
along every path of nested dicts, keys are unique.  (Python dicts cannot
hold a key twice; the association-list embedding can, so general theorems
about dict inputs assume this invariant.)  Values inside lists are never
traversed by the validator and need no condition. -/
inductive NodupTree : Value → Prop where
  | leaf (v : Value) : (∀ es, v ≠ .vdict es) → NodupTree v
  | node (es : List (String × Value)) : (pyKeys es).Nodup →
      (∀ e ∈ es, NodupTree e.2) → NodupTree (.vdict es)

/-- Every `default` in the template (recursively) comes with a declared
`type` it matches.  This is the template sanity condition under which
`validate_node` is idempotent: a default violating it is injected unchecked
on the first run and type-checked (as an input value) on the second. -/
inductive DefaultsWellTyped : Template → Prop where
  | mk (s : Option (List (String × Template))) (k : Option (List TKeyword)) :
      (∀ tks, k = some tks → ∀ tk ∈ tks, ∀ d, tk.default = some d →
        ∃ ty, tk.ktype = some ty ∧ type_matches d ty = .ok true) →
      (∀ secs, s = some secs → ∀ p ∈ secs, DefaultsWellTyped p.2) →
      DefaultsWellTyped (.mk s k)

/-! ## Theorems -/

/-- C1: the spec's round-trip claim — for tag `List[int]` and a list of ints
all matching, `coerce` returns an equal-by-value list — FAILS on the code.
The dict comprehension building `type_fixers` (types.py lines 109-111)
closes over its loop variable, so every `List[T]` fixer maps `str`, and
`coerce` turns `[1, 2, 3]` into `["1", "2", "3"]`, not equal by value to the
input.  The elements match the tag (`type_matches` succeeds), which is
exactly the situation the claim quantifies over. -/
theorem claim1_coerce_listint_maps_str :
    type_matches (.vlist [.vint 1, .vint 2, .vint 3]) "List[int]" = .ok true ∧
    coerce "List[int]" (.vlist [.vint 1, .vint 2, .vint 3])
      = .ok (.vlist [.vstr "1", .vstr "2", .vstr "3"]) ∧
    Value.vlist [.vstr "1", .vstr "2", .vstr "3"] ≠ .vlist [.vint 1, .vint 2, .vint 3] := by
  refine ⟨rfl, rfl, ?_⟩
  simp

/-- C5: a template-declared section absent from the input node does NOT get
an empty mapping validated against it; validate.py line 132 indexes
`input_dict[section]` directly and raises an unhandled `KeyError` naming the
section, for every section name and section template. -/
theorem claim5_missing_section_keyerror (n : Nat) (s : String) (ts : Template) :
    validate_nodeF (n + 1) (.vdict []) (.mk (some [(s, ts)]) (some []))
      = .error (.keyError s) := rfl

/-- C10: a template node without a `keywords` entry makes `validate_node`
raise an unhandled `KeyError` (validate.py line 97 reads
`template_dict['keywords']` without the guard that lines 91-94 use), even on
a valid empty input node, whatever the template's sections are. -/
theorem claim10_missing_keywords_keyerror (n : Nat)
    (ss : Option (List (String × Template))) :
    validate_nodeF (n + 1) (.vdict []) (.mk ss none)
      = .error (.keyError "keywords") := rfl

/-- C2 counterexample: `validate_node` does not leave the caller's input
tree unchanged.  The source fills defaults into `input_dict` itself and
ends with `return input_dict` (its docstring: "This function modifies
input_dict"), so the embedding's result is at once the return value and the
final state of the caller's object.  For the empty input and a template
with one defaulted keyword, that final state is `{"title": "mol"}`, not the
original `{}` — the input tree is mutated, and the returned tree is that
same object, not a fresh unaliased copy. -/
theorem claim2_counterexample :
    validate_nodeF 1 (.vdict [])
      (.mk none (some [⟨"title", some "Title.", some "str", some (.vstr "mol"), none⟩]))
      = .ok (.vdict [("title", .vstr "mol")]) ∧
    Value.vdict [("title", .vstr "mol")] ≠ .vdict [] :=
  ⟨rfl, by simp⟩

/-- C3 counterexample: an input with two violations — the unexpected keyword
`bad` and the missing required keyword `req` (`req` has no default and is
absent, as the last conjunct records) — makes `validate_node` raise a single
`InputError` about `bad` alone; the message does not mention `req`, so the
caller does not see every problem in one pass. -/
theorem claim3_counterexample :
    validate_nodeF 1 (.vdict [("bad", .vint 1)])
      (.mk none (some [⟨"req", some "d", some "int", none, none⟩]))
      = .error (.inputError "found unexpected keyword(s): \x7b'bad'\x7d") ∧
    ¬ strContains "found unexpected keyword(s): \x7b'bad'\x7d" "req" ∧
    pySetDiff (keywordsNoDefault [⟨"req", some "d", some "int", none, none⟩])
        (inputKeywordsOf [("bad", .vint 1)]) = ["req"] :=
  ⟨rfl, by decide, rfl⟩

/-- C4 counterexample: `validate_node` is not idempotent.  A template whose
keyword `a` declares type `int` but carries the default `"x"` (a str)
validates the empty input with no error, producing `{"a": "x"}` — defaults
are injected unchecked — but validating that very output against the same
template raises an `InputError`, because defaults turned input values are
type-checked on the second run. -/
theorem claim4_counterexample :
    validate_nodeF 1 (.vdict [])
      (.mk none (some [⟨"a", some "d", some "int", some (.vstr "x"), none⟩]))
      = .ok (.vdict [("a", .vstr "x")]) ∧
    validate_nodeF 1 (.vdict [("a", .vstr "x")])
      (.mk none (some [⟨"a", some "d", some "int", some (.vstr "x"), none⟩]))
      = .error (.inputError "incorrect type for keyword: a, expected 'int' type") :=
  ⟨rfl, rfl⟩

/-- C6 counterexample: for the keyword `a` declared `int` but given the str
value `"x"`, `validate_node` raises
`InputError("incorrect type for keyword: a, expected 'int' type")` — the
message names the keyword and the declared type but NOT the actual runtime
type `str`, contrary to the claim that both types are named. -/
theorem claim6_counterexample :
    validate_nodeF 1 (.vdict [("a", .vstr "x")])
      (.mk none (some [⟨"a", some "d", some "int", none, none⟩]))
      = .error (.inputError "incorrect type for keyword: a, expected 'int' type") ∧
    pyTypeName (.vstr "x") = "str" ∧
    ¬ strContains "incorrect type for keyword: a, expected 'int' type" "str" :=
  ⟨rfl, rfl, by decide⟩

/-- Membership in `allowed_types` spelt out as the explicit ten-tag list. -/
theorem tm_contains_iff (t : String) :
    allowed_types.contains t = true ↔
      t ∈ (["str", "int", "float", "complex", "bool", "List[str]", "List[int]",
            "List[float]", "List[complex]", "List[bool]"] : List String) := by
  have h : allowed_types = ["str", "int", "float", "complex", "bool", "List[str]",
      "List[int]", "List[float]", "List[complex]", "List[bool]"] := rfl
  rw [h]
  exact List.elem_iff

/-- C7: `type_matches` checks the tag first, unconditionally and
independently of the value: for every value and tag, it returns a boolean
(no exception) exactly when the tag is one of the ten recognized tags, and
raises the `ValueError` naming the tag exactly when it is not. -/
theorem claim7_type_matches_tag_gate (v : Value) (t : String) :
    ((∃ b, type_matches v t = .ok b) ↔
      t ∈ (["str", "int", "float", "complex", "bool", "List[str]", "List[int]",
            "List[float]", "List[complex]", "List[bool]"] : List String)) ∧
    (type_matches v t
        = .error (.valueError ("could not recognize expected_type: " ++ t)) ↔
      t ∉ (["str", "int", "float", "complex", "bool", "List[str]", "List[int]",
            "List[float]", "List[complex]", "List[bool]"] : List String)) := by
  unfold type_matches
  by_cases hc : allowed_types.contains t
  · rw [if_pos hc]
    rw [tm_contains_iff] at hc
    constructor
    · constructor
      · intro _; exact hc
      · intro _
        cases hl : listElementType t with
        | some elemT => cases v <;> exact ⟨_, rfl⟩
        | none => exact ⟨_, rfl⟩
    · constructor
      · intro he
        cases hl : listElementType t <;> rw [hl] at he
        · exact absurd he (by simp)
        · cases v <;> simp at he
      · intro hn; exact absurd hc hn
  · rw [if_neg hc]
    rw [tm_contains_iff] at hc
    constructor
    · constructor
      · rintro ⟨b, hb⟩; simp at hb
      · intro h; exact absurd h hc
    · constructor
      · intro _; exact hc
      · intro _; rfl

/-- Characterization of `type_matches` on a recognized scalar tag. -/
theorem scalar_ok_iff (T : String) (hc : allowed_types.contains T = true)
    (hn : listElementType T = none) (x : Value) :
    type_matches x T = .ok true ↔ pyTypeName x = T := by
  unfold type_matches
  rw [if_pos hc, hn]
  simp

/-- Characterization of `type_matches` on a recognized list tag. -/
theorem list_tag_ok_iff (T tag : String) (hc : allowed_types.contains tag = true)
    (he : listElementType tag = some T) (v : Value) :
    type_matches v tag = .ok true ↔
      ∃ xs, v = .vlist xs ∧ ∀ x ∈ xs, pyTypeName x = T := by
  unfold type_matches
  rw [if_pos hc, he]
  cases v <;> simp [List.all_eq_true]

/-- One scalar tag's instance of the C8 property. -/
theorem list_scalar_case (T : String) (v : Value)
    (hc : allowed_types.contains ("List[" ++ T ++ "]") = true)
    (he : listElementType ("List[" ++ T ++ "]") = some T)
    (hcT : allowed_types.contains T = true) (hnT : listElementType T = none) :
    (type_matches v ("List[" ++ T ++ "]") = .ok true ↔
      ∃ xs, v = .vlist xs ∧ ∀ x ∈ xs, type_matches x T = .ok true) ∧
    type_matches (.vlist []) ("List[" ++ T ++ "]") = .ok true := by
  constructor
  · rw [list_tag_ok_iff T _ hc he]
    constructor
    · rintro ⟨xs, rfl, hall⟩
      exact ⟨xs, rfl, fun x hx => (scalar_ok_iff T hcT hnT x).mpr (hall x hx)⟩
    · rintro ⟨xs, rfl, hall⟩
      exact ⟨xs, rfl, fun x hx => (scalar_ok_iff T hcT hnT x).mp (hall x hx)⟩
  · rw [list_tag_ok_iff T _ hc he]
    exact ⟨[], rfl, by simp⟩

/-- C8: for every list tag `List[T]` with `T` one of the five scalar tags,
`type_matches v (List[T])` returns true iff `v` is a list every element of
which independently matches the scalar tag `T`; in particular the empty
list matches every list tag. -/
theorem claim8_list_tag_iff (T : String) (hT : T ∈ allowed_basic_types) (v : Value) :
    (type_matches v ("List[" ++ T ++ "]") = .ok true ↔
      ∃ xs, v = .vlist xs ∧ ∀ x ∈ xs, type_matches x T = .ok true) ∧
    type_matches (.vlist []) ("List[" ++ T ++ "]") = .ok true := by
  have hT5 : T = "str" ∨ T = "int" ∨ T = "float" ∨ T = "complex" ∨ T = "bool" := by
    simpa [allowed_basic_types] using hT
  rcases hT5 with rfl | rfl | rfl | rfl | rfl
  · exact list_scalar_case "str" v (by decide) (by decide) (by decide) (by decide)
  · exact list_scalar_case "int" v (by decide) (by decide) (by decide) (by decide)
  · exact list_scalar_case "float" v (by decide) (by decide) (by decide) (by decide)
  · exact list_scalar_case "complex" v (by decide) (by decide) (by decide) (by decide)
  · exact list_scalar_case "bool" v (by decide) (by decide) (by decide) (by decide)

/-- Witness for C8 at the concrete tag `List[int]` and list `[1, 2]`. -/
theorem claim8_witness :
    type_matches (.vlist [.vint 1, .vint 2]) ("List[" ++ "int" ++ "]") = .ok true :=
  (claim8_list_tag_iff "int" (by decide) (.vlist [.vint 1, .vint 2])).1.mpr
    ⟨[.vint 1, .vint 2], rfl, by intro x hx; simp at hx; rcases hx with rfl | rfl <;> rfl⟩

/-- Reduction of `check_predicates_node` on a one-keyword node with a single
predicate: the outcome is decided by the `eval` oracle's answer exactly as
validate.py lines 184-189 route it. -/
theorem cpn_single_eval (ev : String → Value → EvalRes) (n : Nat) (root : Value)
    (k p : String) (val : Value) (tk : TKeyword)
    (hk : tk.keyword = k) (hp : tk.predicates = some [p])
    (hnd : pyTypeName val ≠ "dict") :
    check_predicates_nodeF ev (n + 1) root (.vdict [(k, val)]) (.mk none (some [tk]))
      = (match ev p val with
         | .synErr =>
           .error (.templateError ("syntax error in predicate " ++ p ++ " in keyword " ++ k))
         | .exc e => .error (.raised e)
         | .ok r =>
           if pyTruthy r then .ok ()
           else .error (.inputError ("predicate " ++ p ++ " failed in keyword " ++ k))) := by
  have hfb : (pyTypeName val == "dict") = false := by
    simp [hnd]
  simp only [check_predicates_nodeF, check_predicates_nodeF.predsLoop,
    check_predicates_nodeF.onePredLoop, check_predicates_nodeF.predSectionsLoop,
    inputKeywordsOf, inputSectionsOf, pyKeys, pyGet, findKeywordSpec,
    Template.sections, Template.keywords, hk, hp, List.map, List.filter, List.find?,
    beq_self_eq_true, hfb, Option.getD, List.contains, List.elem, Bool.not_false,
    Option.map, List.head?]
  cases hev : ev p val with
  | synErr => simp
  | exc e => simp
  | ok r => cases hr : pyTruthy r <;> simp [hr]

/-- C9: in `check_predicates_node`, for a keyword with a predicate, a
predicate evaluating to a falsy value raises the `InputError` naming the
predicate text and the keyword; a predicate that is malformed as an
expression (`SyntaxError` from `eval`) raises the `TemplateError`; and any
other exception raised by evaluation — e.g. a `NameError` — propagates
unhandled, being neither an `InputError` nor a `TemplateError`. -/
theorem claim9_predicate_error_kinds (n : Nat) (root : Value) (k p : String)
    (val : Value) (tk : TKeyword)
    (hk : tk.keyword = k) (hp : tk.predicates = some [p])
    (hnd : pyTypeName val ≠ "dict") :
    (∀ ev r, ev p val = .ok r → pyTruthy r = false →
      check_predicates_nodeF ev (n + 1) root (.vdict [(k, val)]) (.mk none (some [tk]))
        = .error (.inputError ("predicate " ++ p ++ " failed in keyword " ++ k))) ∧
    (∀ ev, ev p val = .synErr →
      check_predicates_nodeF ev (n + 1) root (.vdict [(k, val)]) (.mk none (some [tk]))
        = .error (.templateError ("syntax error in predicate " ++ p ++ " in keyword " ++ k))) ∧
    (∀ ev e, ev p val = .exc e →
      check_predicates_nodeF ev (n + 1) root (.vdict [(k, val)]) (.mk none (some [tk]))
        = .error (.raised e) ∧
      (∀ m, PyErr.raised e ≠ .inputError m) ∧
      (∀ m, PyErr.raised e ≠ .templateError m)) := by
  refine ⟨?_, ?_, ?_⟩
  · intro ev r hev hfalse
    rw [cpn_single_eval ev n root k p val tk hk hp hnd, hev]
    simp [hfalse]
  · intro ev hev
    rw [cpn_single_eval ev n root k p val tk hk hp hnd, hev]
  · intro ev e hev
    refine ⟨?_, fun m h => PyErr.noConfusion h, fun m h => PyErr.noConfusion h⟩
    rw [cpn_single_eval ev n root k p val tk hk hp hnd, hev]

/-- Witness for C9: the spec's own end-to-end scenario — predicate
`value > 0` on keyword `nval` bound to `-1`, the oracle answering a falsy
result — yields the `InputError` citing the predicate text and keyword. -/
theorem claim9_witness :
    check_predicates_nodeF (fun _ _ => .ok (.vbool false)) 1 (.vdict [])
      (.vdict [("nval", .vint (-1))])
      (.mk none (some [⟨"nval", some "d", some "int", none, some ["value > 0"]⟩]))
      = .error (.inputError "predicate value > 0 failed in keyword nval") := by
  have h := (claim9_predicate_error_kinds 0 (.vdict []) "nval" "value > 0" (.vint (-1))
      ⟨"nval", some "d", some "int", none, some ["value > 0"]⟩ rfl rfl
      (by decide)).1 (fun _ _ => .ok (.vbool false)) (.vbool false) rfl rfl
  simpa using h




theorem pyGet_pySet_self (es : List (String × Value)) (k : String) (v : Value) :
    pyGet (pySet es k v) k = some v := by
  induction es with
  | nil => simp [pyGet, pySet]
  | cons e es ih =>
    by_cases h : e.1 = k
    · simp [pySet, h, pyGet]
    · simp only [pySet, if_neg h, pyGet, List.find?]
      rw [show (e.1 == k) = false by simp [h]]
      exact ih

theorem pyGet_pySet_ne (es : List (String × Value)) (k k' : String) (v : Value)
    (h : k ≠ k') : pyGet (pySet es k' v) k = pyGet es k := by
  induction es with
  | nil => simp [pyGet, pySet, List.find?, show (k' == k) = false by simp [Ne.symm h]]
  | cons e es ih =>
    by_cases he : e.1 = k'
    · simp only [pySet, if_pos he, pyGet, List.find?]
      rw [show (k' == k) = false by simp [Ne.symm h], show (e.1 == k) = false by simp [he, Ne.symm h]]
    · simp only [pySet, if_neg he, pyGet, List.find?]
      cases hek : (e.1 == k) with
      | true => simp
      | false => exact ih

theorem pySet_of_get_eq (es : List (String × Value)) (k : String) (v : Value)
    (h : pyGet es k = some v) : pySet es k v = es := by
  induction es with
  | nil => simp [pyGet] at h
  | cons e es ih =>
    by_cases he : e.1 = k
    · simp only [pyGet, List.find?, show (e.1 == k) = true by simp [he]] at h
      simp only [Option.map] at h
      cases e
      simp_all [pySet]
    · simp only [pyGet, List.find?, show (e.1 == k) = false by simp [he]] at h
      simp [pySet, if_neg he, ih h]

theorem mem_keys_of_pyGet (es : List (String × Value)) (k : String) (v : Value)
    (h : pyGet es k = some v) : k ∈ pyKeys es := by
  induction es with
  | nil => simp [pyGet] at h
  | cons e es ih =>
    simp only [pyGet, List.find?] at h
    cases hek : (e.1 == k) with
    | true => simp [pyKeys]; left; exact (eq_of_beq hek).symm
    | false =>
      rw [hek] at h
      simp only [pyKeys, List.map, List.mem_cons]
      right
      exact ih h

theorem pyGet_eq_none_iff (es : List (String × Value)) (k : String) :
    pyGet es k = none ↔ k ∉ pyKeys es := by
  induction es with
  | nil => simp [pyGet, pyKeys]
  | cons e es ih =>
    simp only [pyGet, List.find?, pyKeys, List.map, List.mem_cons]
    cases hek : (e.1 == k) with
    | true => simp [eq_of_beq hek]
    | false =>
      have : ¬ e.1 = k := by simpa using hek
      simp only [Option.map]
      rw [show pyGet es k = (es.find? (fun e => e.1 == k)).map (·.2) from rfl] at ih
      constructor
      · intro hn
        rcases (ih.mp hn) with h2
        intro hc
        rcases hc with hc | hc
        · exact this hc.symm
        · exact h2 hc
      · intro hn
        exact ih.mpr (fun hc => hn (Or.inr hc))



theorem pyKeys_cons (e : String × Value) (es : List (String × Value)) :
    pyKeys (e :: es) = e.1 :: pyKeys es := rfl

theorem pyKeys_pySet_of_mem (es : List (String × Value)) (k : String) (v : Value)
    (h : k ∈ pyKeys es) : pyKeys (pySet es k v) = pyKeys es := by
  induction es with
  | nil => simp [pyKeys] at h
  | cons e es ih =>
    by_cases he : e.1 = k
    · rw [pySet, if_pos he, pyKeys_cons, pyKeys_cons, he]
    · rw [pySet, if_neg he, pyKeys_cons, pyKeys_cons]
      have h' : k ∈ pyKeys es := by
        rw [pyKeys_cons] at h
        rcases List.mem_cons.mp h with hc | hc
        · exact absurd hc.symm he
        · exact hc
      rw [ih h']

theorem pyKeys_pySet_of_not_mem (es : List (String × Value)) (k : String) (v : Value)
    (h : k ∉ pyKeys es) : pyKeys (pySet es k v) = pyKeys es ++ [k] := by
  induction es with
  | nil => simp [pySet, pyKeys]
  | cons e es ih =>
    have he : ¬ e.1 = k := fun hc => h (by rw [pyKeys_cons]; exact List.mem_cons.mpr (Or.inl hc.symm))
    have h' : k ∉ pyKeys es := fun hc => h (by rw [pyKeys_cons]; exact List.mem_cons.mpr (Or.inr hc))
    rw [pySet, if_neg he, pyKeys_cons, pyKeys_cons, ih h']
    rfl

theorem nodup_keys_pySet (es : List (String × Value)) (k : String) (v : Value)
    (h : (pyKeys es).Nodup) : (pyKeys (pySet es k v)).Nodup := by
  by_cases hm : k ∈ pyKeys es
  · rw [pyKeys_pySet_of_mem es k v hm]; exact h
  · rw [pyKeys_pySet_of_not_mem es k v hm]
    simp [List.nodup_append, h, hm]

theorem mem_pySet_cases (es : List (String × Value)) (k : String) (v : Value)
    (e : String × Value) (h : e ∈ pySet es k v) : e = (k, v) ∨ e ∈ es := by
  induction es with
  | nil => simpa [pySet] using h
  | cons e' es ih =>
    by_cases he : e'.1 = k
    · rw [pySet, if_pos he] at h
      rcases List.mem_cons.mp h with hc | hc
      · exact Or.inl hc
      · exact Or.inr (List.mem_cons_of_mem _ hc)
    · rw [pySet, if_neg he] at h
      rcases List.mem_cons.mp h with hc | hc
      · exact Or.inr (by simp [hc])
      · rcases ih hc with hd | hd
        · exact Or.inl hd
        · exact Or.inr (List.mem_cons_of_mem _ hd)

theorem mem_pyDedup (seen l : List String) (x : String) :
    x ∈ pyDedup seen l ↔ x ∈ l ∧ x ∉ seen := by
  induction l generalizing seen with
  | nil => simp [pyDedup]
  | cons y l ih =>
    by_cases hy : y ∈ seen
    · rw [pyDedup, if_pos hy, ih]
      constructor
      · rintro ⟨h1, h2⟩; exact ⟨List.mem_cons_of_mem _ h1, h2⟩
      · rintro ⟨h1, h2⟩
        rcases List.mem_cons.mp h1 with rfl | h1
        · exact absurd hy h2
        · exact ⟨h1, h2⟩
    · rw [pyDedup, if_neg hy]
      constructor
      · intro h
        rcases List.mem_cons.mp h with rfl | h
        · exact ⟨List.mem_cons_self _ _, hy⟩
        · rcases (ih (y :: seen)).mp h with ⟨h1, h2⟩
          exact ⟨List.mem_cons_of_mem _ h1, fun hc => h2 (List.mem_cons_of_mem _ hc)⟩
      · rintro ⟨h1, h2⟩
        rcases List.mem_cons.mp h1 with rfl | h1
        · exact List.mem_cons_self _ _
        · by_cases hxy : x = y
          · subst hxy; exact List.mem_cons_self _ _
          · exact List.mem_cons_of_mem _ ((ih (y :: seen)).mpr
              ⟨h1, fun hc => (List.mem_cons.mp hc).elim hxy h2⟩)

theorem pyDedup_nodup (seen l : List String) : (pyDedup seen l).Nodup := by
  induction l generalizing seen with
  | nil => simp [pyDedup]
  | cons y l ih =>
    by_cases hy : y ∈ seen
    · rw [pyDedup, if_pos hy]; exact ih seen
    · rw [pyDedup, if_neg hy]
      refine List.nodup_cons.mpr ⟨?_, ih (y :: seen)⟩
      intro hc
      exact ((mem_pyDedup _ _ _).mp hc).2 (List.mem_cons_self _ _)

theorem mem_pySetDiff (a b : List String) (x : String) :
    x ∈ pySetDiff a b ↔ x ∈ a ∧ x ∉ b := by
  rw [pySetDiff, mem_pyDedup]
  simp [List.mem_filter]

theorem pySetDiff_eq_nil_iff (a b : List String) :
    pySetDiff a b = [] ↔ ∀ x ∈ a, x ∈ b := by
  constructor
  · intro h x hx
    by_contra hnb
    have : x ∈ pySetDiff a b := (mem_pySetDiff a b x).mpr ⟨hx, hnb⟩
    simp [h] at this
  · intro h
    by_contra hne
    rcases List.exists_mem_of_ne_nil _ hne with ⟨x, hx⟩
    rcases (mem_pySetDiff a b x).mp hx with ⟨h1, h2⟩
    exact h2 (h x h1)

theorem mem_inputSectionsOf (es : List (String × Value)) (x : String) :
    x ∈ inputSectionsOf es ↔
      x ∈ pyKeys es ∧ pyTypeName ((pyGet es x).getD .vnone) = "dict" := by
  simp [inputSectionsOf, List.mem_filter]

theorem mem_inputKeywordsOf (es : List (String × Value)) (x : String) :
    x ∈ inputKeywordsOf es ↔
      x ∈ pyKeys es ∧ pyTypeName ((pyGet es x).getD .vnone) ≠ "dict" := by
  simp [inputKeywordsOf, List.mem_filter, mem_inputSectionsOf]
  intro h
  simp [h]

theorem findKeywordSpec_mem (tks : List TKeyword) (k : String) (tk : TKeyword)
    (h : findKeywordSpec tks k = some tk) : tk ∈ tks ∧ tk.keyword = k := by
  rw [findKeywordSpec] at h
  have hm := List.mem_of_mem_head? h
  rcases List.mem_filter.mp hm with ⟨h1, h2⟩
  exact ⟨h1, by simpa using h2⟩

theorem findKeywordSpec_isSome (tks : List TKeyword) (k : String)
    (h : k ∈ tks.map (·.keyword)) : ∃ tk, findKeywordSpec tks k = some tk := by
  rcases List.mem_map.mp h with ⟨tk, hmem, hkw⟩
  rw [findKeywordSpec]
  cases hf : (tks.filter (fun x => x.keyword == k)).head? with
  | some tk' => exact ⟨tk', rfl⟩
  | none =>
    rw [List.head?_eq_none_iff] at hf
    have : tk ∈ tks.filter (fun x => x.keyword == k) :=
      List.mem_filter.mpr ⟨hmem, by simp [hkw]⟩
    simp [hf] at this

theorem findSectionTemplate_mem (secs : List (String × Template)) (s : String)
    (ts : String × Template) (h : findSectionTemplate secs s = some ts) :
    ts ∈ secs ∧ ts.1 = s := by
  rw [findSectionTemplate] at h
  have hm := List.mem_of_mem_head? h
  rcases List.mem_filter.mp hm with ⟨h1, h2⟩
  exact ⟨h1, by simpa using h2⟩

theorem findSectionTemplate_isSome (secs : List (String × Template)) (s : String)
    (h : s ∈ secs.map (·.1)) : ∃ ts, findSectionTemplate secs s = some ts := by
  rcases List.mem_map.mp h with ⟨ts, hmem, hs⟩
  rw [findSectionTemplate]
  cases hf : (secs.filter (fun x => x.1 == s)).head? with
  | some ts' => exact ⟨ts', rfl⟩
  | none =>
    rw [List.head?_eq_none_iff] at hf
    have : ts ∈ secs.filter (fun x => x.1 == s) :=
      List.mem_filter.mpr ⟨hmem, by simp [hs]⟩
    simp [hf] at this



theorem pyGet_mem_entry (es : List (String × Value)) (k : String) (v : Value)
    (h : pyGet es k = some v) : (k, v) ∈ es := by
  induction es with
  | nil => simp [pyGet] at h
  | cons e es ih =>
    simp only [pyGet, List.find?] at h
    cases hek : (e.1 == k) with
    | true =>
      rw [hek] at h
      simp only [Option.map] at h
      have h1 : e.1 = k := eq_of_beq hek
      have h2 : e.2 = v := by simpa using h
      have h3 : (k, v) = e := by rw [← h1, ← h2]
      rw [h3]
      exact List.mem_cons_self _ _
    | false =>
      rw [hek] at h
      exact List.mem_cons_of_mem _ (ih h)

theorem pyKeys_subset_pySet (es : List (String × Value)) (k x : String) (v : Value)
    (h : x ∈ pyKeys es) : x ∈ pyKeys (pySet es k v) := by
  by_cases hm : k ∈ pyKeys es
  · rwa [pyKeys_pySet_of_mem es k v hm]
  · rw [pyKeys_pySet_of_not_mem es k v hm]
    exact List.mem_append_left _ h

theorem validate_nodeF_ok_shapes (n : Nat) (w : Value) (t : Template) (M : Value)
    (h : validate_nodeF n w t = .ok M) :
    (∃ ws, w = .vdict ws) ∧ ∃ Ms, M = .vdict Ms := by
  cases n with
  | zero => exact absurd h (by simp [validate_nodeF])
  | succ n =>
    cases w with
    | vdict es =>
      refine ⟨⟨es, rfl⟩, ?_⟩
      simp only [validate_nodeF] at h
      repeat' split at h
      any_goals exact Except.noConfusion h
      exact ⟨_, (Except.ok.inj h).symm⟩
    | vnone => exact absurd h (by simp [validate_nodeF])
    | vbool b => exact absurd h (by simp [validate_nodeF])
    | vint i => exact absurd h (by simp [validate_nodeF])
    | vfloat l => exact absurd h (by simp [validate_nodeF])
    | vcomplex l => exact absurd h (by simp [validate_nodeF])
    | vstr s => exact absurd h (by simp [validate_nodeF])
    | vlist xs => exact absurd h (by simp [validate_nodeF])

theorem validate_nodeF_nonDict_error (n : Nat) (w : Value) (t : Template)
    (hw : ∀ ws, w ≠ .vdict ws) : ∀ M, validate_nodeF n w t ≠ .ok M := by
  intro M h
  rcases (validate_nodeF_ok_shapes n w t M h).1 with ⟨ws, rfl⟩
  exact hw ws rfl



theorem checkTypesLoop_ok_mem (entries : List (String × Value)) (tks : List TKeyword)
    (ks : List String) (h : checkTypesLoop entries tks ks = .ok ()) :
    ∀ k ∈ ks, ∃ tk ty v, findKeywordSpec tks k = some tk ∧ tk.ktype = some ty ∧
      pyGet entries k = some v ∧ type_matches v ty = .ok true := by
  induction ks with
  | nil => simp
  | cons k ks ih =>
    rw [checkTypesLoop] at h
    rcases hf : findKeywordSpec tks k with _ | tk <;> simp only [hf] at h
    · exact Except.noConfusion h
    rcases hty : tk.ktype with _ | ty <;> simp only [hty] at h
    · exact Except.noConfusion h
    rcases hv : pyGet entries k with _ | v <;> simp only [hv] at h
    · exact Except.noConfusion h
    rcases htm : type_matches v ty with e | b <;> simp only [htm] at h
    · exact Except.noConfusion h
    cases b with
    | false => exact Except.noConfusion h
    | true =>
      intro k' hk'
      rcases List.mem_cons.mp hk' with rfl | hk'
      · exact ⟨tk, ty, v, hf, hty, hv, htm⟩
      · exact ih h k' hk'

theorem checkTypesLoop_ok_of (entries : List (String × Value)) (tks : List TKeyword)
    (ks : List String)
    (h : ∀ k ∈ ks, ∃ tk ty v, findKeywordSpec tks k = some tk ∧ tk.ktype = some ty ∧
      pyGet entries k = some v ∧ type_matches v ty = .ok true) :
    checkTypesLoop entries tks ks = .ok () := by
  induction ks with
  | nil => rfl
  | cons k ks ih =>
    rcases h k (List.mem_cons_self _ _) with ⟨tk, ty, v, hf, hty, hv, htm⟩
    simp only [checkTypesLoop, hf, hty, hv, htm]
    exact ih (fun k' hk' => h k' (List.mem_cons_of_mem _ hk'))

theorem fill_preserves_notin (tks : List TKeyword) (ks : List String)
    (es es2 : List (String × Value)) (k : String)
    (h : fillDefaultsLoop tks ks es = .ok es2) (hk : k ∉ ks) :
    pyGet es2 k = pyGet es k := by
  induction ks generalizing es with
  | nil =>
    rw [fillDefaultsLoop] at h
    rw [Except.ok.inj h]
  | cons k' ks ih =>
    rw [fillDefaultsLoop] at h
    rcases hf : findKeywordSpec tks k' with _ | tk <;> simp only [hf] at h
    · exact Except.noConfusion h
    rcases hd : tk.default with _ | d <;> simp only [hd] at h
    · exact Except.noConfusion h
    have hne : k ≠ k' := fun hc => hk (hc ▸ List.mem_cons_self _ _)
    have hks : k ∉ ks := fun hc => hk (List.mem_cons_of_mem _ hc)
    rw [ih (pySet es k' d) h hks]
    exact pyGet_pySet_ne es k k' d hne

theorem fill_get_mem (tks : List TKeyword) (ks : List String)
    (es es2 : List (String × Value)) (k : String) (hnd : ks.Nodup) (hk : k ∈ ks)
    (h : fillDefaultsLoop tks ks es = .ok es2) :
    ∃ tk d, findKeywordSpec tks k = some tk ∧ tk.default = some d ∧
      pyGet es2 k = some d := by
  induction ks generalizing es with
  | nil => simp at hk
  | cons k' ks ih =>
    rw [fillDefaultsLoop] at h
    rcases hf : findKeywordSpec tks k' with _ | tk <;> simp only [hf] at h
    · exact Except.noConfusion h
    rcases hd : tk.default with _ | d <;> simp only [hd] at h
    · exact Except.noConfusion h
    rcases List.mem_cons.mp hk with rfl | hk'
    · refine ⟨tk, d, hf, hd, ?_⟩
      have hkn : k ∉ ks := (List.nodup_cons.mp hnd).1
      rw [fill_preserves_notin tks ks (pySet es k d) es2 k h hkn]
      exact pyGet_pySet_self es k d
    · exact ih (pySet es k' d) (List.nodup_cons.mp hnd).2 hk' h

theorem fill_keys_nodup (tks : List TKeyword) (ks : List String)
    (es es2 : List (String × Value)) (hnd : (pyKeys es).Nodup)
    (h : fillDefaultsLoop tks ks es = .ok es2) : (pyKeys es2).Nodup := by
  induction ks generalizing es with
  | nil => rw [fillDefaultsLoop] at h; rw [← Except.ok.inj h]; exact hnd
  | cons k' ks ih =>
    rw [fillDefaultsLoop] at h
    rcases hf : findKeywordSpec tks k' with _ | tk <;> simp only [hf] at h
    · exact Except.noConfusion h
    rcases hd : tk.default with _ | d <;> simp only [hd] at h
    · exact Except.noConfusion h
    exact ih (pySet es k' d) (nodup_keys_pySet es k' d hnd) h

theorem fill_keys_cases (tks : List TKeyword) (ks : List String)
    (es es2 : List (String × Value)) (x : String)
    (h : fillDefaultsLoop tks ks es = .ok es2) (hx : x ∈ pyKeys es2) :
    x ∈ pyKeys es ∨ x ∈ ks := by
  induction ks generalizing es with
  | nil => rw [fillDefaultsLoop] at h; rw [← Except.ok.inj h] at hx; exact Or.inl hx
  | cons k' ks ih =>
    rw [fillDefaultsLoop] at h
    rcases hf : findKeywordSpec tks k' with _ | tk <;> simp only [hf] at h
    · exact Except.noConfusion h
    rcases hd : tk.default with _ | d <;> simp only [hd] at h
    · exact Except.noConfusion h
    rcases ih (pySet es k' d) h with hc | hc
    · by_cases hm : k' ∈ pyKeys es
      · rw [pyKeys_pySet_of_mem es k' d hm] at hc
        exact Or.inl hc
      · rw [pyKeys_pySet_of_not_mem es k' d hm] at hc
        rcases List.mem_append.mp hc with hc | hc
        · exact Or.inl hc
        · simp at hc
          exact Or.inr (hc ▸ List.mem_cons_self _ _)
    · exact Or.inr (List.mem_cons_of_mem _ hc)

theorem fill_keys_sub (tks : List TKeyword) (ks : List String)
    (es es2 : List (String × Value)) (x : String)
    (h : fillDefaultsLoop tks ks es = .ok es2) (hx : x ∈ pyKeys es) :
    x ∈ pyKeys es2 := by
  induction ks generalizing es with
  | nil => rw [fillDefaultsLoop] at h; rw [← Except.ok.inj h]; exact hx
  | cons k' ks ih =>
    rw [fillDefaultsLoop] at h
    rcases hf : findKeywordSpec tks k' with _ | tk <;> simp only [hf] at h
    · exact Except.noConfusion h
    rcases hd : tk.default with _ | d <;> simp only [hd] at h
    · exact Except.noConfusion h
    exact ih (pySet es k' d) h (pyKeys_subset_pySet es k' x d hx)

theorem fill_values (P : Value → Prop) (tks : List TKeyword) (ks : List String)
    (es es2 : List (String × Value))
    (hes : ∀ e ∈ es, P e.2)
    (hdef : ∀ k ∈ ks, ∀ tk d, findKeywordSpec tks k = some tk → tk.default = some d → P d)
    (h : fillDefaultsLoop tks ks es = .ok es2) : ∀ e ∈ es2, P e.2 := by
  induction ks generalizing es with
  | nil => rw [fillDefaultsLoop] at h; rw [← Except.ok.inj h]; exact hes
  | cons k' ks ih =>
    rw [fillDefaultsLoop] at h
    rcases hf : findKeywordSpec tks k' with _ | tk <;> simp only [hf] at h
    · exact Except.noConfusion h
    rcases hd : tk.default with _ | d <;> simp only [hd] at h
    · exact Except.noConfusion h
    refine ih (pySet es k' d) ?_ (fun k hk => hdef k (List.mem_cons_of_mem _ hk)) h
    intro e he
    rcases mem_pySet_cases es k' d e he with rfl | he'
    · exact hdef k' (List.mem_cons_self _ _) tk d hf hd
    · exact hes e he'



theorem sections_preserves_notin (r : Value → Template → Except PyErr Value)
    (secs : List (String × Template)) (names : List String)
    (es es2 : List (String × Value)) (x : String)
    (h : sectionsLoop r secs names es = .ok es2) (hx : x ∉ names) :
    pyGet es2 x = pyGet es x := by
  induction names generalizing es with
  | nil => rw [sectionsLoop] at h; rw [Except.ok.inj h]
  | cons s names ih =>
    rw [sectionsLoop] at h
    rcases hg : pyGet es s with _ | w <;> simp only [hg] at h
    · exact Except.noConfusion h
    rcases hf : findSectionTemplate secs s with _ | ts <;> simp only [hf] at h
    · exact Except.noConfusion h
    rcases hr : r w ts.2 with e | V <;> simp only [hr] at h
    · exact Except.noConfusion h
    have hxs : x ≠ s := fun hc => hx (hc ▸ List.mem_cons_self _ _)
    have hxn : x ∉ names := fun hc => hx (List.mem_cons_of_mem _ hc)
    rw [ih (pySet es s V) h hxn]
    exact pyGet_pySet_ne es x s V hxs

theorem sections_keys (r : Value → Template → Except PyErr Value)
    (secs : List (String × Template)) (names : List String)
    (es es2 : List (String × Value))
    (h : sectionsLoop r secs names es = .ok es2) : pyKeys es2 = pyKeys es := by
  induction names generalizing es with
  | nil => rw [sectionsLoop] at h; rw [Except.ok.inj h]
  | cons s names ih =>
    rw [sectionsLoop] at h
    rcases hg : pyGet es s with _ | w <;> simp only [hg] at h
    · exact Except.noConfusion h
    rcases hf : findSectionTemplate secs s with _ | ts <;> simp only [hf] at h
    · exact Except.noConfusion h
    rcases hr : r w ts.2 with e | V <;> simp only [hr] at h
    · exact Except.noConfusion h
    rw [ih (pySet es s V) h]
    exact pyKeys_pySet_of_mem es s V (mem_keys_of_pyGet es s w hg)

theorem sections_values_final (P : Value → Prop)
    (r : Value → Template → Except PyErr Value)
    (secs : List (String × Template)) (names : List String)
    (es es2 : List (String × Value))
    (hes : ∀ e ∈ es, P e.2)
    (hr : ∀ w V ts, ts ∈ secs → P w → r w ts.2 = .ok V → P V)
    (h : sectionsLoop r secs names es = .ok es2) :
    (∀ e ∈ es2, P e.2) ∧
    ∀ s ∈ names, ∃ ts w V, findSectionTemplate secs s = some ts ∧ P w ∧
      r w ts.2 = .ok V ∧ pyGet es2 s = some V := by
  induction names generalizing es with
  | nil =>
    rw [sectionsLoop] at h
    rw [← Except.ok.inj h]
    exact ⟨hes, by simp⟩
  | cons s names ih =>
    rw [sectionsLoop] at h
    rcases hg : pyGet es s with _ | w <;> simp only [hg] at h
    · exact Except.noConfusion h
    rcases hf : findSectionTemplate secs s with _ | ts <;> simp only [hf] at h
    · exact Except.noConfusion h
    rcases hrw : r w ts.2 with e | V <;> simp only [hrw] at h
    · exact Except.noConfusion h
    have hPw : P w := hes _ (pyGet_mem_entry es s w hg)
    have hPV : P V := hr w V ts (findSectionTemplate_mem secs s ts hf).1 hPw hrw
    have hes' : ∀ e ∈ pySet es s V, P e.2 := by
      intro e he
      rcases mem_pySet_cases es s V e he with rfl | he'
      · exact hPV
      · exact hes e he'
    rcases ih (pySet es s V) hes' h with ⟨hvals, hrest⟩
    refine ⟨hvals, ?_⟩
    intro s' hs'
    rcases List.mem_cons.mp hs' with rfl | hs'
    · by_cases hsn : s' ∈ names
      · exact hrest s' hsn
      · refine ⟨ts, w, V, hf, hPw, hrw, ?_⟩
        rw [sections_preserves_notin r secs names (pySet es s' V) es2 s' h hsn]
        exact pyGet_pySet_self es s' V
    · exact hrest s' hs'

theorem sections_mem_nonok (r : Value → Template → Except PyErr Value)
    (secs : List (String × Template)) (names : List String)
    (es : List (String × Value)) (x : String) (w : Value)
    (hx : x ∈ names) (hw : pyGet es x = some w)
    (hnr : ∀ t' V, r w t' ≠ .ok V) :
    ∀ es2, sectionsLoop r secs names es ≠ .ok es2 := by
  induction names generalizing es with
  | nil => simp at hx
  | cons s names ih =>
    intro es2 h
    rw [sectionsLoop] at h
    by_cases hsx : s = x
    · subst hsx
      rw [hw] at h
      rcases hf : findSectionTemplate secs s with _ | ts <;> simp only [hf] at h
      · exact Except.noConfusion h
      rcases hr : r w ts.2 with e | V <;> simp only [hr] at h
      · exact Except.noConfusion h
      · exact hnr ts.2 V hr
    · rcases hg : pyGet es s with _ | w' <;> simp only [hg] at h
      · exact Except.noConfusion h
      rcases hf : findSectionTemplate secs s with _ | ts <;> simp only [hf] at h
      · exact Except.noConfusion h
      rcases hr : r w' ts.2 with e | V <;> simp only [hr] at h
      · exact Except.noConfusion h
      have hx' : x ∈ names := by
        rcases List.mem_cons.mp hx with rfl | hc
        · exact absurd rfl hsx
        · exact hc
      have hw' : pyGet (pySet es s V) x = some w := by
        rw [pyGet_pySet_ne es x s V (fun hc => hsx hc.symm)]
        exact hw
      exact ih (pySet es s V) hx' hw' es2 h

theorem sectionsLoop_id (r : Value → Template → Except PyErr Value)
    (secs : List (String × Template)) (names : List String)
    (es : List (String × Value))
    (h : ∀ s ∈ names, ∃ ts V, findSectionTemplate secs s = some ts ∧
      pyGet es s = some V ∧ r V ts.2 = .ok V) :
    sectionsLoop r secs names es = .ok es := by
  induction names with
  | nil => rfl
  | cons s names ih =>
    rcases h s (List.mem_cons_self _ _) with ⟨ts, V, hf, hg, hr⟩
    rw [sectionsLoop]
    simp only [hg, hf, hr]
    rw [pySet_of_get_eq es s V hg]
    exact ih (fun s' hs' => h s' (List.mem_cons_of_mem _ hs'))



theorem not_vdict_of_typeName (v : Value) (h : pyTypeName v ≠ "dict") :
    ∀ ws, v ≠ .vdict ws := by
  intro ws hc
  subst hc
  exact h rfl

theorem validate_ok_cases (n : Nat) (es : List (String × Value)) (t : Template)
    (M : Value) (h : validate_nodeF (n + 1) (.vdict es) t = .ok M) :
    ∃ tks es2 es3,
      t.keywords = some tks ∧
      keywordsNoDoc tks = [] ∧
      pySetDiff (inputKeywordsOf es) (tks.map (·.keyword)) = [] ∧
      pySetDiff (inputSectionsOf es) ((t.sections.getD []).map (·.1)) = [] ∧
      pySetDiff (keywordsNoDefault tks) (inputKeywordsOf es) = [] ∧
      checkTypesLoop es tks (inputKeywordsOf es) = .ok () ∧
      fillDefaultsLoop tks (pySetDiff (tks.map (·.keyword)) (inputKeywordsOf es)) es
        = .ok es2 ∧
      sectionsLoop (validate_nodeF n) (t.sections.getD [])
        ((t.sections.getD []).map (·.1)) es2 = .ok es3 ∧
      M = .vdict es3 := by
  simp only [validate_nodeF] at h
  rcases hk : t.keywords with _ | tks <;> simp only [hk] at h
  · exact Except.noConfusion h
  by_cases hdoc : (keywordsNoDoc tks).length > 0
  · rw [if_pos hdoc] at h; exact Except.noConfusion h
  rw [if_neg hdoc] at h
  have hdoc' : keywordsNoDoc tks = [] := by
    cases hKND : keywordsNoDoc tks with
    | nil => rfl
    | cons a l => rw [hKND] at hdoc; exact absurd (by simp) hdoc
  by_cases h1 : pySetDiff (inputKeywordsOf es) (tks.map (·.keyword)) = []
  · rw [if_neg (fun hc => hc h1)] at h
    by_cases h2 : pySetDiff (inputSectionsOf es) ((t.sections.getD []).map (·.1)) = []
    · rw [if_neg (fun hc => hc h2)] at h
      by_cases h3 : pySetDiff (keywordsNoDefault tks) (inputKeywordsOf es) = []
      · rw [if_neg (fun hc => hc h3)] at h
        rcases hct : checkTypesLoop es tks (inputKeywordsOf es) with e | u <;>
          simp only [hct] at h
        · exact Except.noConfusion h
        rcases hfill : fillDefaultsLoop tks
            (pySetDiff (tks.map (·.keyword)) (inputKeywordsOf es)) es with e | es2 <;>
          simp only [hfill] at h
        · exact Except.noConfusion h
        rcases hsec : sectionsLoop (validate_nodeF n) (t.sections.getD [])
            ((t.sections.getD []).map (·.1)) es2 with e | es3 <;>
          simp only [hsec] at h
        · exact Except.noConfusion h
        exact ⟨tks, es2, es3, rfl, hdoc', h1, h2, h3, hct, hfill, hsec,
          (Except.ok.inj h).symm⟩
      · rw [if_pos h3] at h; exact Except.noConfusion h
    · rw [if_pos h2] at h; exact Except.noConfusion h
  · rw [if_pos h1] at h; exact Except.noConfusion h



/-- C2 amended: `validate_node` treats the input tree as the object it
mutates and returns (full aliasing), not as read-only data.  What does hold:
on success every non-section entry of the caller's dict survives unchanged
inside the returned (same) object — mutation only appends defaults and
replaces section values with their validated sub-trees. -/
theorem claim2_input_entries_preserved (n : Nat) (es Ms : List (String × Value)) (t : Template)
    (h : validate_nodeF n (.vdict es) t = .ok (.vdict Ms))
    (k : String) (val : Value) (hget : pyGet es k = some val)
    (hnd : pyTypeName val ≠ "dict") : pyGet Ms k = some val := by
  cases n with
  | zero => exact absurd h (by simp [validate_nodeF])
  | succ n =>
    rcases validate_ok_cases n es t _ h with
      ⟨tks, es2, es3, hk, hdoc, h1, h2, h3, hct, hfill, hsec, hM⟩
    have hMs : Ms = es3 := by
      have := Value.vdict.inj hM.symm
      exact this.symm
    subst hMs
    have hkik : k ∈ inputKeywordsOf es := by
      rw [mem_inputKeywordsOf]
      refine ⟨mem_keys_of_pyGet es k val hget, ?_⟩
      rw [hget]
      exact hnd
    have hknf : k ∉ pySetDiff (tks.map (·.keyword)) (inputKeywordsOf es) := by
      intro hc
      exact ((mem_pySetDiff _ _ _).mp hc).2 hkik
    have hes2 : pyGet es2 k = some val := by
      rw [fill_preserves_notin tks _ es es2 k hfill hknf]
      exact hget
    have hknsec : k ∉ (t.sections.getD []).map (·.1) := by
      intro hc
      exact sections_mem_nonok (validate_nodeF n) (t.sections.getD []) _ es2 k val hc
        hes2 (fun t' V hr => validate_nodeF_nonDict_error n val t'
          (not_vdict_of_typeName val hnd) V hr) Ms hsec
    rw [sections_preserves_notin (validate_nodeF n) _ _ es2 Ms k hsec hknsec]
    exact hes2

/-- Witness for C2 amended at a concrete input keyword. -/
theorem claim2_witness : pyGet [("a", Value.vint 5)] "a" = some (Value.vint 5) :=
  claim2_input_entries_preserved 1 [("a", .vint 5)] [("a", .vint 5)]
    (.mk none (some [⟨"a", some "d", some "int", none, none⟩])) rfl "a" (.vint 5) rfl
    (by decide)



/-- C3 amended: `validate_node` is fail-fast, not aggregating.  Whenever the
template keywords are documented and the input has at least one unexpected
keyword, the result is the single unexpected-keyword `InputError` — whatever
other violations (unexpected sections, missing required keywords, type
mismatches) the input also contains; they are never reported alongside.
Aggregation across the traversal is the behaviour of the other validator
variant (`rec_typenade` in types.py), not of `validate_node`. -/
theorem claim3_fail_fast_first_error (n : Nat) (es : List (String × Value))
    (ss : Option (List (String × Template))) (tks : List TKeyword)
    (hdoc : keywordsNoDoc tks = [])
    (hne : pySetDiff (inputKeywordsOf es) (tks.map (·.keyword)) ≠ []) :
    validate_nodeF (n + 1) (.vdict es) (.mk ss (some tks))
      = .error (.inputError ("found unexpected keyword(s): "
          ++ pySetRepr (pySetDiff (inputKeywordsOf es) (tks.map (·.keyword))))) := by
  simp only [validate_nodeF, Template.keywords, Template.sections]
  rw [hdoc]
  rw [if_neg (by simp)]
  rw [if_pos hne]

/-- Witness for C3 amended: two unexpected keywords, one required keyword
missing — the reported error is the unexpected-keyword one. -/
theorem claim3_witness :
    validate_nodeF 1 (.vdict [("bad", .vint 1), ("other", .vint 2)])
      (.mk none (some [⟨"req", some "d", some "int", none, none⟩]))
      = .error (.inputError ("found unexpected keyword(s): "
          ++ pySetRepr (pySetDiff
              (inputKeywordsOf [("bad", .vint 1), ("other", .vint 2)])
              (([⟨"req", some "d", some "int", none, none⟩] : List TKeyword).map
                (·.keyword))))) :=
  claim3_fail_fast_first_error 0 [("bad", .vint 1), ("other", .vint 2)] none
    [⟨"req", some "d", some "int", none, none⟩] rfl (by decide)

/-- C6 amended: on a type mismatch `validate_node` raises an `InputError`
whose message names the keyword and the DECLARED type only (format
`incorrect type for keyword: k, expected 'T' type`) — not the actual type —
and produces no merged tree at all (the function raises instead of
returning). -/
theorem claim6_mismatch_message_format (n : Nat) (k doc ty : String) (val : Value) (dflt : Option Value)
    (hdoc : pyStrip doc ≠ "") (hnd : pyTypeName val ≠ "dict")
    (hty : type_matches val ty = .ok false) :
    validate_nodeF (n + 1) (.vdict [(k, val)])
      (.mk none (some [⟨k, some doc, some ty, dflt, none⟩]))
      = .error (.inputError
          ("incorrect type for keyword: " ++ k ++ ", expected '" ++ ty ++ "' type")) := by
  have hb1 : (pyTypeName val == "dict") = false := by simp [hnd]
  have hb2 : (pyStrip doc == "") = false := by simp [hdoc]
  rcases dflt with _ | d <;>
  · simp only [validate_nodeF, Template.keywords, Template.sections, inputKeywordsOf,
      inputSectionsOf, pyKeys, pyGet, keywordsNoDoc, keywordsNoDefault, findKeywordSpec,
      checkTypesLoop, pySetDiff, pyDedup, List.map, List.filter, List.find?,
      beq_self_eq_true, hb1, hb2, Option.getD, Option.map, Option.isNone,
      List.contains, List.elem, Bool.not_true, Bool.not_false, List.head?,
      Bool.or_false, Bool.false_or, List.length_nil, hty, Option.getD_none,
      Option.getD_some]
    simp

theorem type_matches_ok_true_not_dict (v : Value) (ty : String)
    (h : type_matches v ty = .ok true) : pyTypeName v ≠ "dict" := by
  unfold type_matches at h
  by_cases hc : allowed_types.contains ty
  · rw [if_pos hc] at h
    rcases hl : listElementType ty with _ | elemT <;> rw [hl] at h
    · have : pyTypeName v = ty := by simpa using h
      rw [this]
      intro hd
      rw [hd] at hc
      exact absurd hc (by decide)
    · cases v <;> simp_all [pyTypeName]
  · rw [if_neg hc] at h
    exact Except.noConfusion h

theorem mem_keys_cases (es : List (String × Value)) (x : String)
    (h : x ∈ pyKeys es) : x ∈ inputSectionsOf es ∨ x ∈ inputKeywordsOf es := by
  by_cases hd : pyTypeName ((pyGet es x).getD .vnone) = "dict"
  · exact Or.inl ((mem_inputSectionsOf es x).mpr ⟨h, hd⟩)
  · exact Or.inr ((mem_inputKeywordsOf es x).mpr ⟨h, hd⟩)

theorem validate_ok_intro (n : Nat) (es es2 es3 : List (String × Value))
    (t : Template) (tks : List TKeyword)
    (hk : t.keywords = some tks)
    (hdoc : keywordsNoDoc tks = [])
    (h1 : pySetDiff (inputKeywordsOf es) (tks.map (·.keyword)) = [])
    (h2 : pySetDiff (inputSectionsOf es) ((t.sections.getD []).map (·.1)) = [])
    (h3 : pySetDiff (keywordsNoDefault tks) (inputKeywordsOf es) = [])
    (hct : checkTypesLoop es tks (inputKeywordsOf es) = .ok ())
    (hfill : fillDefaultsLoop tks (pySetDiff (tks.map (·.keyword)) (inputKeywordsOf es)) es
      = .ok es2)
    (hsec : sectionsLoop (validate_nodeF n) (t.sections.getD [])
      ((t.sections.getD []).map (·.1)) es2 = .ok es3) :
    validate_nodeF (n + 1) (.vdict es) t = .ok (.vdict es3) := by
  simp only [validate_nodeF, hk]
  rw [hdoc]
  rw [if_neg (by simp)]
  rw [if_neg (fun hc => hc h1), if_neg (fun hc => hc h2), if_neg (fun hc => hc h3)]
  simp only [hct, hfill, hsec]

theorem dwt_keywords (t : Template) (hdwt : DefaultsWellTyped t)
    (tks : List TKeyword) (hk : t.keywords = some tks) :
    ∀ tk ∈ tks, ∀ d, tk.default = some d →
      ∃ ty, tk.ktype = some ty ∧ type_matches d ty = .ok true := by
  cases hdwt with
  | mk s kk hkw hss =>
    exact fun tk htk d hd =>
      hkw tks (by simpa [Template.keywords] using hk) tk htk d hd

theorem dwt_sections (t : Template) (hdwt : DefaultsWellTyped t) :
    ∀ p ∈ t.sections.getD [], DefaultsWellTyped p.2 := by
  cases hdwt with
  | mk s kk hkw hss =>
    intro p hp
    cases s with
    | none => simp [Template.sections] at hp
    | some secs' => exact hss secs' rfl p (by simpa [Template.sections] using hp)

theorem validate_idem_aux : ∀ (n : Nat) (v : Value) (t : Template) (M : Value),
    NodupTree v → DefaultsWellTyped t → validate_nodeF n v t = .ok M →
    NodupTree M ∧ validate_nodeF n M t = .ok M := by
  intro n
  induction n with
  | zero => intro v t M _ _ h; exact absurd h (by simp [validate_nodeF])
  | succ n ih =>
    intro v t M hwf hdwt h
    obtain ⟨⟨es, rfl⟩, ⟨Ms, rfl⟩⟩ := validate_nodeF_ok_shapes _ _ _ _ h
    rcases validate_ok_cases n es t _ h with
      ⟨tks, es2, es3, hk, hdoc, h1, h2, h3, hct, hfill, hsec, hM⟩
    rw [show Ms = es3 from Value.vdict.inj hM]
    have hkeysN : (pyKeys es).Nodup := by
      cases hwf with
      | leaf _ hne => exact absurd rfl (hne es)
      | node _ hn _ => exact hn
    have hvalsN : ∀ e ∈ es, NodupTree e.2 := by
      cases hwf with
      | leaf _ hne => exact absurd rfl (hne es)
      | node _ _ hv => exact hv
    have hdefs := dwt_keywords t hdwt tks hk
    have hsecsD := dwt_sections t hdwt
    -- first-run pointwise facts
    have hF1 := checkTypesLoop_ok_mem es tks (inputKeywordsOf es) hct
    have hfillN : (pySetDiff (tks.map (·.keyword)) (inputKeywordsOf es)).Nodup :=
      pyDedup_nodup _ _
    have hF2 : ∀ k ∈ pySetDiff (tks.map (·.keyword)) (inputKeywordsOf es),
        ∃ tk d, findKeywordSpec tks k = some tk ∧ tk.default = some d ∧
          pyGet es2 k = some d :=
      fun k hkm => fill_get_mem tks _ es es2 k hfillN hkm hfill
    have hF3 : ∀ k ∈ inputKeywordsOf es, pyGet es2 k = pyGet es k := by
      intro k hkm
      refine fill_preserves_notin tks _ es es2 k hfill ?_
      intro hc
      exact ((mem_pySetDiff _ _ _).mp hc).2 hkm
    -- values fed through the loops and their dict-ness
    have hF5 : ∀ k ∈ pySetDiff (tks.map (·.keyword)) (inputKeywordsOf es),
        ∃ tk ty d, findKeywordSpec tks k = some tk ∧ tk.ktype = some ty ∧
          tk.default = some d ∧ type_matches d ty = .ok true ∧
          pyGet es2 k = some d := by
      intro k hkm
      rcases hF2 k hkm with ⟨tk, d, hfind, hd, hg⟩
      rcases hdefs tk (findKeywordSpec_mem tks k tk hfind).1 d hd with ⟨ty, hty, htm⟩
      exact ⟨tk, ty, d, hfind, hty, hd, htm, hg⟩
    have hF6 : ∀ k ∈ inputKeywordsOf es, k ∉ (t.sections.getD []).map (·.1) := by
      intro k hkm hc
      rcases hF1 k hkm with ⟨tk, ty, v, _, _, hg, htm⟩
      have hg2 : pyGet es2 k = some v := by rw [hF3 k hkm]; exact hg
      exact sections_mem_nonok (validate_nodeF n) _ _ es2 k v hc hg2
        (fun t' V hr => validate_nodeF_nonDict_error n v t'
          (not_vdict_of_typeName v (type_matches_ok_true_not_dict v ty htm)) V hr)
        es3 hsec
    have hF7 : ∀ k ∈ pySetDiff (tks.map (·.keyword)) (inputKeywordsOf es),
        k ∉ (t.sections.getD []).map (·.1) := by
      intro k hkm hc
      rcases hF5 k hkm with ⟨tk, ty, d, _, _, _, htm, hg2⟩
      exact sections_mem_nonok (validate_nodeF n) _ _ es2 k d hc hg2
        (fun t' V hr => validate_nodeF_nonDict_error n d t'
          (not_vdict_of_typeName d (type_matches_ok_true_not_dict d ty htm)) V hr)
        es3 hsec
    have hF8 : ∀ k ∈ inputKeywordsOf es, pyGet es3 k = pyGet es k := by
      intro k hkm
      rw [sections_preserves_notin (validate_nodeF n) _ _ es2 es3 k hsec (hF6 k hkm)]
      exact hF3 k hkm
    have hF9 : ∀ k ∈ pySetDiff (tks.map (·.keyword)) (inputKeywordsOf es),
        ∃ tk ty d, findKeywordSpec tks k = some tk ∧ tk.ktype = some ty ∧
          type_matches d ty = .ok true ∧ pyGet es3 k = some d := by
      intro k hkm
      rcases hF5 k hkm with ⟨tk, ty, d, hfind, hty, hd, htm, hg2⟩
      refine ⟨tk, ty, d, hfind, hty, htm, ?_⟩
      rw [sections_preserves_notin (validate_nodeF n) _ _ es2 es3 k hsec (hF7 k hkm)]
      exact hg2
    have hF10 : pyKeys es3 = pyKeys es2 :=
      sections_keys (validate_nodeF n) _ _ es2 es3 hsec
    have hF11 : ∀ x ∈ inputSectionsOf es, x ∈ (t.sections.getD []).map (·.1) :=
      (pySetDiff_eq_nil_iff _ _).mp h2
    have hsub1 : ∀ x ∈ inputKeywordsOf es, x ∈ tks.map (·.keyword) :=
      (pySetDiff_eq_nil_iff _ _).mp h1
    -- values of es3 are all well-formed trees
    have hvals2 : ∀ e ∈ es2, NodupTree e.2 := by
      refine fill_values NodupTree tks _ es es2 hvalsN ?_ hfill
      intro k hkm tk d hfind hd
      rcases hdefs tk (findKeywordSpec_mem tks k tk hfind).1 d hd with ⟨ty, _, htm⟩
      exact NodupTree.leaf d
        (not_vdict_of_typeName d (type_matches_ok_true_not_dict d ty htm))
    have hFin := sections_values_final NodupTree (validate_nodeF n) (t.sections.getD [])
      ((t.sections.getD []).map (·.1)) es2 es3 hvals2
      (fun w V ts hts hw hr => (ih w ts.2 V hw (hsecsD ts hts) hr).1) hsec
    have hvals3 : ∀ e ∈ es3, NodupTree e.2 := hFin.1
    have hfin : ∀ s ∈ (t.sections.getD []).map (·.1),
        ∃ ts w V, findSectionTemplate (t.sections.getD []) s = some ts ∧
          NodupTree w ∧ validate_nodeF n w ts.2 = .ok V ∧ pyGet es3 s = some V :=
      hFin.2
    have hkeys3N : (pyKeys es3).Nodup := by
      rw [hF10]
      exact fill_keys_nodup tks _ es es2 hkeysN hfill
    have hwf3 : NodupTree (.vdict es3) := NodupTree.node es3 hkeys3N hvals3
    -- classification of es3's keys for the second run
    have hG2 : ∀ x ∈ inputKeywordsOf es3,
        x ∈ inputKeywordsOf es ∨
          x ∈ pySetDiff (tks.map (·.keyword)) (inputKeywordsOf es) := by
      intro x hx
      rcases (mem_inputKeywordsOf es3 x).mp hx with ⟨hxk, hxnd⟩
      rw [hF10] at hxk
      rcases fill_keys_cases tks _ es es2 x hfill hxk with hxe | hxf
      · rcases mem_keys_cases es x hxe with hxs | hxkw
        · exfalso
          rcases hfin x (hF11 x hxs) with ⟨ts, w, V, _, _, hrun, hgV⟩
          rcases (validate_nodeF_ok_shapes n w ts.2 V hrun).2 with ⟨Vs, rfl⟩
          rw [hgV] at hxnd
          exact hxnd rfl
        · exact Or.inl hxkw
      · exact Or.inr hxf
    have hG3 : ∀ x ∈ inputKeywordsOf es, x ∈ inputKeywordsOf es3 := by
      intro x hx
      rcases hF1 x hx with ⟨tk, ty, v, _, _, hg, htm⟩
      have hg3 : pyGet es3 x = some v := by rw [hF8 x hx]; exact hg
      refine (mem_inputKeywordsOf es3 x).mpr ⟨mem_keys_of_pyGet es3 x v hg3, ?_⟩
      rw [hg3]
      exact type_matches_ok_true_not_dict v ty htm
    have hG4 : ∀ x ∈ pySetDiff (tks.map (·.keyword)) (inputKeywordsOf es),
        x ∈ inputKeywordsOf es3 := by
      intro x hx
      rcases hF9 x hx with ⟨tk, ty, d, _, _, htm, hg3⟩
      refine (mem_inputKeywordsOf es3 x).mpr ⟨mem_keys_of_pyGet es3 x d hg3, ?_⟩
      rw [hg3]
      exact type_matches_ok_true_not_dict d ty htm
    -- the five checks of the second run
    have hG5 : pySetDiff (inputKeywordsOf es3) (tks.map (·.keyword)) = [] := by
      rw [pySetDiff_eq_nil_iff]
      intro x hx
      rcases hG2 x hx with hxk | hxf
      · exact hsub1 x hxk
      · exact ((mem_pySetDiff _ _ _).mp hxf).1
    have hG6 : pySetDiff (inputSectionsOf es3) ((t.sections.getD []).map (·.1)) = [] := by
      rw [pySetDiff_eq_nil_iff]
      intro x hx
      rcases (mem_inputSectionsOf es3 x).mp hx with ⟨hxk, hxd⟩
      rw [hF10] at hxk
      rcases fill_keys_cases tks _ es es2 x hfill hxk with hxe | hxf
      · rcases mem_keys_cases es x hxe with hxs | hxkw
        · exact hF11 x hxs
        · exfalso
          rcases hF1 x hxkw with ⟨tk, ty, v, _, _, hg, htm⟩
          have hg3 : pyGet es3 x = some v := by rw [hF8 x hxkw]; exact hg
          rw [hg3] at hxd
          exact type_matches_ok_true_not_dict v ty htm hxd
      · exfalso
        rcases hF9 x hxf with ⟨tk, ty, d, _, _, htm, hg3⟩
        rw [hg3] at hxd
        exact type_matches_ok_true_not_dict d ty htm hxd
    have hG7 : pySetDiff (keywordsNoDefault tks) (inputKeywordsOf es3) = [] := by
      rw [pySetDiff_eq_nil_iff]
      intro x hx
      exact hG3 x ((pySetDiff_eq_nil_iff _ _).mp h3 x hx)
    have hG8 : checkTypesLoop es3 tks (inputKeywordsOf es3) = .ok () := by
      refine checkTypesLoop_ok_of es3 tks _ ?_
      intro k hkm
      rcases hG2 k hkm with hkw | hkf
      · rcases hF1 k hkw with ⟨tk, ty, v, hfind, hty, hg, htm⟩
        have hg3 : pyGet es3 k = some v := by rw [hF8 k hkw]; exact hg
        exact ⟨tk, ty, v, hfind, hty, hg3, htm⟩
      · rcases hF9 k hkf with ⟨tk, ty, d, hfind, hty, htm, hg3⟩
        exact ⟨tk, ty, d, hfind, hty, hg3, htm⟩
    have hG9 : pySetDiff (tks.map (·.keyword)) (inputKeywordsOf es3) = [] := by
      rw [pySetDiff_eq_nil_iff]
      intro x hx
      by_cases hxk : x ∈ inputKeywordsOf es
      · exact hG3 x hxk
      · exact hG4 x ((mem_pySetDiff _ _ _).mpr ⟨hx, hxk⟩)
    have hG10 : sectionsLoop (validate_nodeF n) (t.sections.getD [])
        ((t.sections.getD []).map (·.1)) es3 = .ok es3 := by
      refine sectionsLoop_id (validate_nodeF n) _ _ es3 ?_
      intro s hs
      rcases hfin s hs with ⟨ts, w, V, hfind, hw, hrun, hgV⟩
      refine ⟨ts, V, hfind, hgV, ?_⟩
      exact (ih w ts.2 V hw (hsecsD ts (findSectionTemplate_mem _ s ts hfind).1) hrun).2
    refine ⟨hwf3, ?_⟩
    refine validate_ok_intro n es3 es3 es3 t tks hk hdoc hG5 hG6 hG7 hG8 ?_ hG10
    rw [hG9]
    rfl

/-- C4 amended: `validate_node` is idempotent PROVIDED every template
default (recursively) matches its declared type: re-running it on its own
error-free merged output against the same template succeeds and returns the
same output.  Without that proviso idempotence fails
(see the counterexample): defaults are injected unchecked on the first run
and type-checked as input values on the second.  `NodupTree` is the
invariant every real Python dict tree has (unique keys). -/
theorem claim4_idempotent_when_defaults_welltyped (n : Nat) (v M : Value) (t : Template)
    (hwf : NodupTree v) (hdwt : DefaultsWellTyped t)
    (h : validate_nodeF n v t = .ok M) :
    validate_nodeF n M t = .ok M :=
  (validate_idem_aux n v t M hwf hdwt h).2

/-- Witness for C4 amended: a template with a defaulted keyword and a
defaulted section keyword; re-validating the merged output reproduces it. -/
theorem claim4_witness :
    validate_nodeF 2
      (.vdict [("scf", .vdict [("maxiter", .vint 20)]), ("title", .vstr "calc")])
      (.mk (some [("scf", .mk none
          (some [⟨"maxiter", some "m", some "int", some (.vint 20), none⟩]))])
        (some [⟨"title", some "t", some "str", some (.vstr "calc"), none⟩]))
      = .ok (.vdict [("scf", .vdict [("maxiter", .vint 20)]), ("title", .vstr "calc")]) := by
  have hwf : NodupTree (.vdict [("scf", .vdict [])]) := by
    refine NodupTree.node _ (by simp [pyKeys]) ?_
    intro e he
    simp only [List.mem_singleton] at he
    subst he
    refine NodupTree.node [] (by simp [pyKeys]) (by simp)
  have hdwt : DefaultsWellTyped
      (.mk (some [("scf", .mk none
          (some [⟨"maxiter", some "m", some "int", some (.vint 20), none⟩]))])
        (some [⟨"title", some "t", some "str", some (.vstr "calc"), none⟩])) := by
    refine DefaultsWellTyped.mk _ _ ?_ ?_
    · intro tks hks tk htk d hd
      simp only [Option.some.injEq] at hks
      subst hks
      simp only [List.mem_singleton] at htk
      subst htk
      simp only [Option.some.injEq] at hd
      subst hd
      exact ⟨"str", rfl, rfl⟩
    · intro secs hsecs p hp
      simp only [Option.some.injEq] at hsecs
      subst hsecs
      simp only [List.mem_singleton] at hp
      subst hp
      refine DefaultsWellTyped.mk _ _ ?_ ?_
      · intro tks hks tk htk d hd
        simp only [Option.some.injEq] at hks
        subst hks
        simp only [List.mem_singleton] at htk
        subst htk
        simp only [Option.some.injEq] at hd
        subst hd
        exact ⟨"int", rfl, rfl⟩
      · intro secs hsecs p hp
        simp at hsecs
  exact claim4_idempotent_when_defaults_welltyped 2 (.vdict [("scf", .vdict [])]) _ _ hwf hdwt rfl

/-- Witness for C6 amended: str value for an int-declared keyword. -/
theorem claim6_witness :
    validate_nodeF 1 (.vdict [("charge", .vstr "two")])
      (.mk none (some [⟨"charge", some "Total charge.", some "int", none, none⟩]))
      = .error (.inputError
          ("incorrect type for keyword: " ++ "charge" ++ ", expected '" ++ "int" ++ "' type")) :=
  claim6_mismatch_message_format 0 "charge" "Total charge." "int" (.vstr "two") none (by decide) (by decide) rfl

end Parselglossy
